import Mathlib

/-!
Verification of the Business Discovery engine (backend/api_server.py).

This file gives a shallow embedding of the discovery pipeline: the candidate
validator functions, the URL/domain normalization, the enrichment scraper, and
the DiscoveryEngine (per-candidate processing, per-location pagination loop,
and the job run loop with its stop conditions), together with theorems about
the claimed properties.

Modelling conventions:
* Python strings are Lean `String`s; all character-level work is done on the
  underlying `List Char` with structural recursion so that every definition is
  executable by the kernel.
* External effects (the Places details lookup and the HTTP page fetches of the
  enrichment scraper) are modelled as oracles, and the paginated nearby-search
  responses as an explicit response trace consumed one response per request;
  an exhausted trace models a transport error (the client's `except` branch,
  which returns a synthetic ERROR status).
* `time.sleep` calls are no-ops for the state and are not modelled; the job
  progress/current-keyword fields, which no claim mentions, are also omitted.
* Machine floats (city coordinates) only parametrize the outgoing HTTP request
  and never influence control flow, so locations are modelled by their names.
-/

namespace BizDiscovery

/-- The characters stripped by Python `str.strip()` and matched by regex `\s`
(ASCII fragment, which is the relevant one here). -/
def pyIsSpace (c : Char) : Bool :=
  c = ' ' || c = '\t' || c = '\n' || c = '\r' || c = '\x0b' || c = '\x0c'

/-- Python `str.strip()`: drop leading and trailing whitespace. -/
def pyStrip (l : List Char) : List Char :=
  ((l.dropWhile pyIsSpace).reverse.dropWhile pyIsSpace).reverse

/-- `str.strip()` on a `String`. -/
def pyStripStr (s : String) : String := String.mk (pyStrip s.data)

/-- Truthiness of `f and f.strip()` (the field test of `calc_completeness`):
true exactly when the string has a non-whitespace character. -/
def hasContent (s : String) : Bool := s.data.any (fun c => !(pyIsSpace c))

/-- Python substring containment (`pat in s`). -/
def containsSeq (pat : List Char) : List Char → Bool
  | [] => pat.isPrefixOf ([] : List Char)
  | c :: rest => pat.isPrefixOf (c :: rest) || containsSeq pat rest

/-- Python `str.lower()` (ASCII case folding). -/
def lowerStr (s : String) : String := String.mk (s.data.map Char.toLower)

/-- Python `str.upper()` (ASCII case folding). -/
def upperStr (s : String) : String := String.mk (s.data.map Char.toUpper)

/-- Python `str.startswith`. -/
def startsWithStr (s pre : String) : Bool := pre.data.isPrefixOf s.data

/-- Python `str.endswith`. -/
def endsWithStr (s suf : String) : Bool := suf.data.reverse.isPrefixOf s.data.reverse

/-- Code-point lexicographic order on character lists (Python string `<=`). -/
def lexLe : List Char → List Char → Bool
  | [], _ => true
  | _ :: _, [] => false
  | a :: as, b :: bs =>
    if a.toNat < b.toNat then true
    else if b.toNat < a.toNat then false
    else lexLe as bs

/-! ### Constants (module-level constants of api_server.py) -/

def FAKE_PHONE_PATTERNS : List String := ["555", "123-456", "000-000", "111-111"]

def FAKE_EMAIL_DOMAINS : List String :=
  ["example.com", "test.com", "demo.com", "fake.com", "sample.com", "domain.com"]

def FAKE_EMAIL_PREFIXES : List String := ["test@", "demo@", "example@", "fake@", "noreply@"]

def DEFAULT_MIN_BUSINESSES : Nat := 500

/-! ### Candidate validator functions -/

/-- All characters equal (`len(set(norm)) == 1` for nonempty `norm`). -/
def allSameChar : List Char → Bool
  | [] => true
  | c :: rest => rest.all (fun d => d = c)

/-- `is_fake_phone` (api_server.py line 133).  The fixed patterns contain no
regex metacharacters, so `re.search(p, phone)` is substring containment. -/
def is_fake_phone (phone : String) : Bool :=
  if phone = "" then false
  else
    let norm := phone.data.filter Char.isDigit
    if containsSeq ['5', '5', '5'] norm then true
    else if 7 ≤ norm.length && allSameChar norm then true
    else FAKE_PHONE_PATTERNS.any (fun p => containsSeq p.data phone.data)

/-- `is_fake_email` (api_server.py line 140). -/
def is_fake_email (email : String) : Bool :=
  if email = "" then false
  else
    let e := lowerStr email
    FAKE_EMAIL_DOMAINS.any (fun d => endsWithStr e ("@" ++ d)) ||
    FAKE_EMAIL_PREFIXES.any (fun p => startsWithStr e p)

/-! ### extract_city_state (api_server.py line 145)

The two patterns are
  `,\s*([^,]+),\s*([A-Z]{2})\s*\d{5}`   and   `,\s*([^,]+),\s*([A-Z]{2})\s*$`,
tried in order with `re.search` (leftmost match).  Both start with a literal
comma, `[^,]+` cannot cross a comma, and the following literal comma must be
the next comma of the input, so matching at a position is deterministic: the
group-1 segment is the maximal comma-free run after the first comma (the
leading `\s*` and the final `.strip()` make group 1 the stripped segment), and
the tail after the second comma must consist of optional whitespace, exactly
two capital letters, and the pattern-specific tail. -/

/-- Tail of pattern 1 after the two capital letters: `\s*\d{5}`. -/
def stateTailZip (t : List Char) : Bool :=
  let d := t.dropWhile pyIsSpace
  5 ≤ d.length && (d.take 5).all Char.isDigit

/-- Tail of pattern 2 after the two capital letters: `\s*$`. -/
def stateTailEnd (t : List Char) : Bool := t.all pyIsSpace

/-- Try to match one of the two city/state patterns at this exact position
(which must hold the leading literal comma). -/
def matchCityStateAt (tailOk : List Char → Bool) : List Char → Option (String × String)
  | ',' :: t =>
    let seg := t.takeWhile (fun c => c ≠ ',')
    (match seg, t.dropWhile (fun c => c ≠ ',') with
     | _ :: _, ',' :: t2 =>
       (match t2.dropWhile pyIsSpace with
        | a :: b :: t4 =>
          if a.isUpper && b.isUpper && tailOk t4 then
            some (String.mk (pyStrip seg), String.mk [a, b])
          else none
        | _ => none)
     | _, _ => none)
  | _ => none

/-- `re.search`: scan start positions left to right. -/
def searchCityState (tailOk : List Char → Bool) : List Char → Option (String × String)
  | [] => none
  | c :: rest =>
    match matchCityStateAt tailOk (c :: rest) with
    | some r => some r
    | none => searchCityState tailOk rest

/-- `extract_city_state` (api_server.py line 145). -/
def extract_city_state (address : String) : String × String :=
  if address = "" then ("", "")
  else
    match searchCityState stateTailZip address.data with
    | some r => r
    | none =>
      match searchCityState stateTailEnd address.data with
      | some r => r
      | none => ("", "")

/-! ### extract_emails (api_server.py line 155)

The email regex is `[a-zA-Z0-9._%+-]+@[a-zA-Z0-9.-]+\.[a-zA-Z]{2,}` run with
`re.findall` over the lower-cased text: non-overlapping leftmost matches.  The
local-part class excludes `@`, so the greedy local part is the maximal run
before a literal `@`; the domain part backtracks from the right to the largest
split `domain ++ "." ++ tld` with at least two letters of `tld`. -/

def localOk (c : Char) : Bool :=
  c.isAlphanum || c = '.' || c = '_' || c = '%' || c = '+' || c = '-'

def domOk (c : Char) : Bool := c.isAlphanum || c = '.' || c = '-'

/-- Try the domain split `[a-zA-Z0-9.-]+` = first `k` characters, followed by
`\.[a-zA-Z]{2,}` (greedy trailing letters). Returns the matched domain part
and the remaining input. -/
def domSplitAt (rest : List Char) (k : Nat) : Option (List Char × List Char) :=
  match rest.drop k with
  | '.' :: a :: b :: _ =>
    if a.isAlpha && b.isAlpha then
      let tld := (rest.drop (k + 1)).takeWhile Char.isAlpha
      some (rest.take k ++ '.' :: tld, rest.drop (k + 1 + tld.length))
    else none
  | _ => none

/-- Greedy backtracking: largest viable split first. -/
def domFindK (rest : List Char) : Nat → Option (List Char × List Char)
  | 0 => none
  | k + 1 =>
    match domSplitAt rest (k + 1) with
    | some r => some r
    | none => domFindK rest k

def domMatch (rest : List Char) : Option (List Char × List Char) :=
  domFindK rest ((rest.takeWhile domOk).length - 1)

/-- Try to match the whole email regex at this position; on success return
the match and the input remaining after it. -/
def tryEmailAt (l : List Char) : Option (List Char × List Char) :=
  let loc := l.takeWhile localOk
  match loc, l.drop loc.length with
  | _ :: _, '@' :: rest =>
    (match domMatch rest with
     | some (dm, rem) => some (loc ++ '@' :: dm, rem)
     | none => none)
  | _, _ => none

/-- `re.findall`: scan, emitting non-overlapping matches; the fuel is an upper
bound on the remaining input length. -/
def findEmailsGo : Nat → List Char → List String
  | 0, _ => []
  | _ + 1, [] => []
  | fuel + 1, c :: rest =>
    match tryEmailAt (c :: rest) with
    | some (em, rem) => String.mk em :: findEmailsGo fuel rem
    | none => findEmailsGo fuel rest

def findEmails (l : List Char) : List String := findEmailsGo l.length l

/-- `extract_emails` (api_server.py line 155): lower-case, find all matches,
deduplicate (`set(...)`), and drop the fake ones. -/
def extract_emails (text : String) : List String :=
  if text = "" then []
  else (findEmails (lowerStr text).data).eraseDups.filter (fun e => !(is_fake_email e))

/-! ### Domain normalization (DiscoveryEngine._get_domain, api_server.py line 206)

`urlparse(u).netloc` is nonempty only when, after the optional `scheme:`, the
rest starts with `//`; it then extends to the next `/`, `?` or `#`.  The code
then applies `.lower().replace('www.', '')`; Python `str.replace` removes
every non-overlapping occurrence left to right, which `pyReplaceWWW` mirrors
exactly. -/

def validScheme : List Char → Bool
  | [] => false
  | c :: rest => c.isAlpha && rest.all (fun d => d.isAlphanum || d = '+' || d = '-' || d = '.')

def restAfterScheme (u : List Char) : List Char :=
  let pre := u.takeWhile (fun c => c ≠ ':')
  match u.drop pre.length with
  | ':' :: r => if validScheme pre then r else u
  | _ => u

def netlocOf (u : String) : String :=
  match restAfterScheme u.data with
  | '/' :: '/' :: r => String.mk (r.takeWhile (fun c => c ≠ '/' && c ≠ '?' && c ≠ '#'))
  | _ => ""

/-- Python `s.replace('www.', '')`: remove every occurrence, scanning left to
right without re-examining already-emitted output. -/
def pyReplaceWWW : List Char → List Char
  | 'w' :: 'w' :: 'w' :: '.' :: rest => pyReplaceWWW rest
  | c :: rest => c :: pyReplaceWWW rest
  | [] => []

/-- `DiscoveryEngine._get_domain` (api_server.py line 206): `None` for a falsy
url, otherwise the lower-cased netloc with all `"www."` occurrences removed
(possibly the empty string, which the call sites treat as falsy). -/
def getDomain (url : String) : Option String :=
  if url = "" then none
  else
    let u := if startsWithStr url "http" then url else "https://" ++ url
    some (String.mk (pyReplaceWWW (lowerStr (netlocOf u)).data))

/-! ### Data model -/

/-- The validated output record (dataclass `Business`). -/
structure Business where
  business_name : String := ""
  phone_number : String := ""
  email : String := ""
  website : String := ""
  address : String := ""
  city : String := ""
  state : String := ""
  search_keyword : String := ""
  google_place_id : String := ""
  email_source : String := ""
  data_completeness_score : Nat := 0
deriving DecidableEq, Repr, Inhabited

/-- `calc_completeness` (api_server.py line 152): the number of the four
contact fields that are truthy and have truthy `strip()`. -/
def calc_completeness (b : Business) : Nat :=
  List.countP hasContent [b.phone_number, b.email, b.website, b.address]

/-- One raw nearby-search result (`place.get(...)` defaults applied). -/
structure Place where
  place_id : String := ""
  name : String := ""
  vicinity : String := ""
deriving DecidableEq, Repr, Inhabited

/-- The `result` object of a details response; `none` models an absent key
(so `.get(key, fallback)` is `Option.getD`). -/
structure DetailsResult where
  name : Option String := none
  formatted_phone_number : Option String := none
  formatted_address : Option String := none
  website : Option String := none
deriving DecidableEq, Repr, Inhabited

/-- One page of a nearby-search response. -/
structure PageResp where
  status : String := "ERROR"
  results : List Place := []
  next_page_token : Option String := none
deriving DecidableEq, Repr, Inhabited

/-- The engine's running statistics counters. -/
structure Stats where
  total_searched : Nat := 0
  duplicates : Nat := 0
  fake_phones : Nat := 0
  fake_emails : Nat := 0
  validation_failed : Nat := 0
  emails_scraped : Nat := 0
deriving DecidableEq, Repr, Inhabited

/-- The external world: the details lookup (already projected to its `result`
object) and the page fetcher of the enrichment scraper (`some body` models an
HTTP 200 response, `none` any failure, non-200 status or timeout). -/
structure Oracles where
  details : String → DetailsResult
  fetchPage : String → Option String

/-- The engine's accumulated mutable state: the insertion-ordered business
map (`self.businesses`), the domain index (`self.seen_domains`) and the stats
counters. -/
structure EngineState where
  businesses : List (String × Business) := []
  seen_domains : List (String × String) := []
  stats : Stats := {}
deriving Repr, Inhabited

/-- Python `key in dict`. -/
def hasKey {α : Type} (l : List (String × α)) (k : String) : Bool :=
  l.any (fun p => p.1 == k)

/-! ### Enrichment scraper (scrape_email, api_server.py line 159) -/

/-- Try the candidate pages in order, returning the first email found on a
successfully fetched page. -/
def scrapePages (o : Oracles) : List String → Option String
  | [] => none
  | p :: rest =>
    match o.fetchPage p with
    | some body =>
      (match extract_emails body with
       | e :: _ => some e
       | [] => scrapePages o rest)
    | none => scrapePages o rest

/-- `scrape_email` (api_server.py line 159). -/
def scrape_email (o : Oracles) (website : String) : Option String :=
  if website = "" then none
  else
    let w := if startsWithStr website "http://" || startsWithStr website "https://" then website
             else "https://" ++ website
    let base := String.mk (w.data.reverse.dropWhile (fun c => c = '/')).reverse
    scrapePages o [w, base ++ "/contact", base ++ "/about"]

/-! ### DiscoveryEngine._process_place (api_server.py line 211)

The record/stats pipeline stages are written as successive `let`s; where the
Python mutates one object, the Lean rebinds.  The stats update attached to a
stage tests the same condition as the record update of that stage. -/

/-- The candidate record and stats after the build/fixup stages of
`_process_place` (build from details with search-snippet fallbacks, derive
city/state, blank a fake phone, enrich from the website, blank a fake email),
before the completeness score is computed. -/
def buildCandidate (o : Oracles) (s0 : Stats) (det : DetailsResult) (place : Place)
    (keyword : String) : Business × Stats :=
  let website := det.website.getD ""
  let addr := det.formatted_address.getD place.vicinity
  let cs := extract_city_state addr
  let b1 : Business :=
    { business_name := det.name.getD place.name
      phone_number := det.formatted_phone_number.getD ""
      address := addr
      website := website
      search_keyword := keyword
      google_place_id := place.place_id
      city := cs.1
      state := cs.2 }
  let fakePhone := is_fake_phone b1.phone_number
  let b2 := if fakePhone then { b1 with phone_number := "" } else b1
  let s2 := if fakePhone then { s0 with fake_phones := s0.fake_phones + 1 } else s0
  let scraped := if website ≠ "" then scrape_email o website else none
  let b3 := match scraped with
    | some em => { b2 with email := em, email_source := "website_scrape" }
    | none => b2
  let s3 := match scraped with
    | some _ => { s2 with emails_scraped := s2.emails_scraped + 1 }
    | none => s2
  let fakeEmail := is_fake_email b3.email
  let b4 := if fakeEmail then { b3 with email := "", email_source := "" } else b3
  let s4 := if fakeEmail then { s3 with fake_emails := s3.fake_emails + 1 } else s3
  (b4, s4)

/-- `_process_place`: duplicate guards, candidate build, threshold check.
Returns the accepted Business (or `none`) and the updated stats. -/
def processPlace (o : Oracles) (st : EngineState) (place : Place) (keyword : String) :
    Option Business × Stats :=
  let pid := place.place_id
  if pid = "" || hasKey st.businesses pid then
    (none, { st.stats with duplicates := st.stats.duplicates + 1 })
  else
    let det := o.details pid
    let website := det.website.getD ""
    let domain := getDomain website
    if (match domain with
        | some d => decide (d ≠ "") && hasKey st.seen_domains d
        | none => false) then
      (none, { st.stats with duplicates := st.stats.duplicates + 1 })
    else
      let bs := buildCandidate o st.stats det place keyword
      let b := { bs.1 with data_completeness_score := calc_completeness bs.1 }
      if b.data_completeness_score < 2 then
        (none, { bs.2 with validation_failed := bs.2.validation_failed + 1 })
      else
        (some b, bs.2)

/-- The body of the per-result loop of `_search_location` (api_server.py
line 265): bump `total_searched`, process the place, and on acceptance store
the Business under its place id and register its (truthy) domain. -/
def processOne (o : Oracles) (keyword : String) (st : EngineState) (place : Place) :
    EngineState :=
  let st := { st with stats := { st.stats with total_searched := st.stats.total_searched + 1 } }
  match processPlace o st place keyword with
  | (some b, s) =>
    { businesses := st.businesses ++ [(b.google_place_id, b)]
      seen_domains :=
        (match getDomain b.website with
         | some d => if d ≠ "" then st.seen_domains ++ [(d, b.google_place_id)] else st.seen_domains
         | none => st.seen_domains)
      stats := s }
  | (none, s) => { st with stats := s }

/-! ### DiscoveryEngine._search_location (api_server.py line 254)

The pagination `while True` loop.  Each `nearby_search` call consumes the
next response of the trace (an exhausted trace models the client's `except`
branch, which answers with a synthetic ERROR status and no results).  The
client sets its permanent `quota_exceeded` flag as soon as a response carries
the OVER_QUERY_LIMIT status, before the engine inspects the status; the
engine then sleeps and rechecks the flag, continuing (a retry) only when the
flag is clear.  The function returns the final state, the quota flag and the
unconsumed remainder of the trace (so that the number of requests actually
issued is visible). -/

def searchLoc (o : Oracles) (keyword : String) :
    List PageResp → Bool → EngineState → EngineState × Bool × List PageResp
  | [], quota, st => (st, quota, [])
  | resp :: rest, quota, st =>
    let quota := quota || resp.status == "OVER_QUERY_LIMIT"
    if resp.status == "OVER_QUERY_LIMIT" then
      if quota then (st, quota, rest)
      else searchLoc o keyword rest quota st
    else if resp.status ≠ "OK" && resp.status ≠ "ZERO_RESULTS" then (st, quota, rest)
    else
      let st := resp.results.foldl (processOne o keyword) st
      match resp.next_page_token with
      | none => (st, quota, rest)
      | some _ => searchLoc o keyword rest quota st

/-! ### Location tables (STATE_CITIES and DEFAULT_CITIES, names only) -/

def STATE_CITIES : List (String × List String) :=
  [("TX", ["Houston", "San Antonio", "Dallas", "Austin", "Fort Worth", "El Paso", "Arlington",
           "Corpus Christi", "Plano", "Lubbock"]),
   ("CA", ["Los Angeles", "San Diego", "San Jose", "San Francisco", "Fresno", "Sacramento",
           "Oakland"]),
   ("FL", ["Miami", "Orlando", "Tampa", "Jacksonville", "Fort Lauderdale"]),
   ("NY", ["New York City", "Buffalo", "Rochester", "Albany"]),
   ("GA", ["Atlanta", "Savannah", "Augusta"]),
   ("NC", ["Charlotte", "Raleigh", "Greensboro"]),
   ("AZ", ["Phoenix", "Tucson", "Mesa"]),
   ("IL", ["Chicago", "Aurora", "Rockford"]),
   ("PA", ["Philadelphia", "Pittsburgh"]),
   ("OH", ["Columbus", "Cleveland", "Cincinnati"]),
   ("CO", ["Denver", "Colorado Springs"]),
   ("WA", ["Seattle", "Spokane"]),
   ("TN", ["Nashville", "Memphis"]),
   ("NV", ["Las Vegas", "Reno"])]

def DEFAULT_CITIES : List (String × List String) :=
  [("AL", ["Birmingham"]), ("AK", ["Anchorage"]), ("AR", ["Little Rock"]), ("CT", ["Hartford"]),
   ("DE", ["Wilmington"]), ("HI", ["Honolulu"]), ("ID", ["Boise"]), ("IN", ["Indianapolis"]),
   ("IA", ["Des Moines"]), ("KS", ["Wichita"]), ("KY", ["Louisville"]), ("LA", ["New Orleans"]),
   ("ME", ["Portland"]), ("MD", ["Baltimore"]), ("MA", ["Boston"]), ("MI", ["Detroit"]),
   ("MN", ["Minneapolis"]), ("MS", ["Jackson"]), ("MO", ["Kansas City"]), ("MT", ["Billings"]),
   ("NE", ["Omaha"]), ("NH", ["Manchester"]), ("NJ", ["Newark"]), ("NM", ["Albuquerque"]),
   ("ND", ["Fargo"]), ("OK", ["Oklahoma City"]), ("OR", ["Portland"]), ("RI", ["Providence"]),
   ("SC", ["Charleston"]), ("SD", ["Sioux Falls"]), ("UT", ["Salt Lake City"]),
   ("VT", ["Burlington"]), ("VA", ["Virginia Beach"]), ("WV", ["Charleston"]),
   ("WI", ["Milwaukee"]), ("WY", ["Cheyenne"]), ("DC", ["Washington"])]

/-- Python `dict.get(k, default)`. -/
def tableGet (tbl : List (String × List String)) (k : String) (dflt : List String) :
    List String :=
  match tbl.find? (fun p => p.1 == k) with
  | some p => p.2
  | none => dflt

/-! ### DiscoveryEngine.run and _sorted (api_server.py lines 276 and 306) -/

/-- The job configuration fields that `run` reads (`minResults` carries the
`DEFAULT_MIN_BUSINESSES` fallback of `config.get`). -/
structure RunConfig where
  keywords : List String
  state : String
  minResults : Nat := DEFAULT_MIN_BUSINESSES
  geographyMode : String := "state"
  cities : Option (List String) := none
deriving Repr, Inhabited

/-- The location-resolution preamble of `run`: explicit cities only in city
mode, any falsy value (absent key or empty list) falling back to
`STATE_CITIES.get(state, DEFAULT_CITIES.get(state, []))`. -/
def resolveCities (cfg : RunConfig) : List String :=
  let state := upperStr cfg.state
  let cities := if cfg.geographyMode == "city" then cfg.cities.getD [] else []
  if cities = [] then tableGet STATE_CITIES state (tableGet DEFAULT_CITIES state []) else cities

/-- `get_stop_reason_detail` (api_server.py line 130). -/
def get_stop_reason_detail (reason : String) : String :=
  if reason == "Target reached" then "Found enough valid businesses to meet your target."
  else if reason == "All locations exhausted" then "All cities searched. Try different keywords or state."
  else if reason == "API quota exceeded" then "Google API rate limit reached. Wait and retry."
  else if reason == "" then "Search completed."
  else "Search ended: " ++ reason

/-- The Python sort key `(-score, name.lower())` compared lexicographically:
descending completeness score, then ascending case-insensitive name. -/
def bizLe (a b : Business) : Bool :=
  if b.data_completeness_score < a.data_completeness_score then true
  else if a.data_completeness_score < b.data_completeness_score then false
  else lexLe (lowerStr a.business_name).data (lowerStr b.business_name).data

/-- Stable insertion: place `a` before the first element it compares
less-or-equal to. -/
def insertLe {α : Type} (le : α → α → Bool) (a : α) : List α → List α
  | [] => [a]
  | b :: rest => if le a b then a :: b :: rest else b :: insertLe le a rest

/-- Stable sort (insertion sort).  Python's `list.sort` is a stable sort, and
for a total preorder the stably sorted permutation is unique, so this is the
exact semantics of `r.sort(key=...)`. -/
def sortByLe {α : Type} (le : α → α → Bool) (l : List α) : List α :=
  l.foldr (insertLe le) []

/-- `DiscoveryEngine._sorted`: the accumulated businesses (dict values in
insertion order) sorted by the key `(-score, name.lower())`. -/
def sortedResults (st : EngineState) : List Business :=
  sortByLe bizLe (st.businesses.map (fun p => p.2))

/-- The keyword-major, location-minor loop of `run`.  `traces` assigns to
each step index (= completed (keyword, city) pairs so far) the response trace
of that `_search_location` call; the quota flag lives in the engine's single
`PlacesClient` and persists across locations.  After each pair the valid
count is checked against the target. -/
def runGo (o : Oracles) (traces : Nat → List PageResp) (minResults : Nat) :
    List (String × String) → Nat → Bool → EngineState → EngineState × String
  | [], _, _, st => (st, "All locations exhausted")
  | (keyword, _) :: rest, step, quota, st =>
    let r := searchLoc o keyword (traces step) quota st
    if minResults ≤ r.1.businesses.length then (r.1, "Target reached")
    else runGo o traces minResults rest (step + 1) r.2.1 r.1

/-- The same loop without the early target exit: the state and quota flag
after searching every pair (used to say "the full loop completed"). -/
def runAllPairs (o : Oracles) (traces : Nat → List PageResp) :
    List (String × String) → Nat → Bool → EngineState → EngineState × Bool
  | [], _, quota, st => (st, quota)
  | (keyword, _) :: rest, step, quota, st =>
    let r := searchLoc o keyword (traces step) quota st
    runAllPairs o traces rest (step + 1) r.2.1 r.1

/-- What a finished `run` leaves behind: the returned business list, the
final engine state, and the job's stop reason fields. -/
structure RunOut where
  results : List Business
  finalState : EngineState
  stop_reason : String
  stop_reason_detail : String
deriving Repr, Inhabited

/-- The (keyword, city) iteration sequence: keywords outer, cities inner. -/
def pairsOf (keywords cities : List String) : List (String × String) :=
  keywords.flatMap (fun k => cities.map (fun c => (k, c)))

/-- `DiscoveryEngine.run` (api_server.py line 276). -/
def run (o : Oracles) (traces : Nat → List PageResp) (cfg : RunConfig) : RunOut :=
  let state := upperStr cfg.state
  let cities := resolveCities cfg
  if cities = [] then
    { results := []
      finalState := {}
      stop_reason := "No cities configured"
      stop_reason_detail := "No cities for state " ++ state ++ "." }
  else
    let r := runGo o traces cfg.minResults (pairsOf cfg.keywords cities) 0 false {}
    { results := sortedResults r.1
      finalState := r.1
      stop_reason := r.2
      stop_reason_detail := get_stop_reason_detail r.2 }

/-! ### Definitions supporting the claim statements (invariants, the
spec-side domain key, positional precedence, and concrete witness data) -/

/-- A state predicate preserved by the per-result processing step of
`_search_location`. -/
def StepInv (P : EngineState → Prop) : Prop :=
  ∀ (o : Oracles) (kw : String) (st : EngineState) (place : Place),
    P st → P (processOne o kw st place)

/-- The truthy dedup key of a Business: its normalized website domain when
that is neither `None` nor empty (both call sites of `_get_domain` guard with
Python truthiness). -/
def domKey (b : Business) : Option String :=
  match getDomain b.website with
  | some d => if d = "" then none else some d
  | none => none

/-- The C1 invariant: place ids are unique keys, every key is its Business's
place id, every stored truthy domain is registered in `seen_domains`, and no
two stored Businesses share a truthy domain. -/
def C1Inv (st : EngineState) : Prop :=
  (st.businesses.map Prod.fst).Nodup ∧
  (∀ p ∈ st.businesses, p.1 = p.2.google_place_id) ∧
  (∀ p ∈ st.businesses, ∀ d, domKey p.2 = some d → hasKey st.seen_domains d = true) ∧
  st.businesses.Pairwise (fun p q => ∀ d, domKey p.2 = some d → domKey q.2 ≠ some d)

/-- The C2 invariant: every stored Business meets the completeness threshold
and carries its own completeness score. -/
def C2Inv (st : EngineState) : Prop :=
  ∀ p ∈ st.businesses,
    2 ≤ calc_completeness p.2 ∧ p.2.data_completeness_score = calc_completeness p.2

/-- The C10 invariant: no stored Business has a fake email. -/
def C10Inv (st : EngineState) : Prop :=
  ∀ p ∈ st.businesses, is_fake_email p.2.email = false

/-- Characters on which the domain-key pipeline is transparent: fixed by
lower-casing, not `w`, and not a URL delimiter. -/
def goodChar (c : Char) : Bool :=
  c.toLower = c && c ≠ 'w' && c ≠ ':' && c ≠ '/' && c ≠ '?' && c ≠ '#'

/-- The domain key as the claim (and spec §4.4) words it: the lower-cased
host with exactly a leading `"www."` prefix removed and all other host
characters preserved. -/
def specDomainKey (url : String) : Option String :=
  if url = "" then none
  else
    let u := if startsWithStr url "http" then url else "https://" ++ url
    let h := lowerStr (netlocOf u)
    some (if startsWithStr h "www." then String.mk (h.data.drop 4) else h)

/-- "x precedes y" in a list: x occurs at a strictly earlier position. -/
def precedesIn (l : List Business) (x y : Business) : Prop :=
  ∃ i j : Fin l.length, i < j ∧ l.get i = x ∧ l.get j = y

instance precedesInDecidable (l : List Business) (x y : Business) :
    Decidable (precedesIn l x y) :=
  inferInstanceAs (Decidable (∃ i j : Fin l.length, i < j ∧ l.get i = x ∧ l.get j = y))

/-- The C3 claim as stated, for distinct members of a final list. -/
def c3Statement (l : List Business) : Prop :=
  ∀ x y, x ∈ l → y ∈ l → x ≠ y →
    (y.data_completeness_score < x.data_completeness_score → precedesIn l x y) ∧
    (x.data_completeness_score = y.data_completeness_score →
      (precedesIn l x y ↔
        lexLe (lowerStr x.business_name).data (lowerStr y.business_name).data = true))

def bAcme1 : Business :=
  { business_name := "Acme", google_place_id := "p1", data_completeness_score := 2 }

def bAcme2 : Business :=
  { business_name := "acme", google_place_id := "p2", data_completeness_score := 2 }

def stC3 : EngineState := { businesses := [("p1", bAcme1), ("p2", bAcme2)] }

def oW : Oracles := { details := fun _ => {}, fetchPage := fun _ => none }

def oW2 : Oracles :=
  { details := fun pid =>
      if pid = "p2" then { website := some "http://acme.com" } else {}
    fetchPage := fun _ => none }

def stW : EngineState :=
  { businesses := [("p1", { google_place_id := "p1" })]
    seen_domains := [("acme.com", "p1")] }

def oW3 : Oracles :=
  { details := fun _ => {}
    fetchPage := fun u => if u = "https://acme.com" then some "mail a@acme.com" else none }

def cfgW : RunConfig := { keywords := ["plumber"], state := "zz", minResults := 1 }

/-! ## Helper lemmas -/

/-! ### The stable sort -/

theorem mem_insertLe {α : Type} (le : α → α → Bool) (a x : α) :
    ∀ l : List α, x ∈ insertLe le a l ↔ x = a ∨ x ∈ l := by
  intro l
  induction l with
  | nil => simp [insertLe]
  | cons b rest ih =>
    by_cases h : le a b = true
    · simp [insertLe, h]
    · simp only [insertLe, if_neg h, List.mem_cons, ih]
      tauto

theorem perm_insertLe {α : Type} (le : α → α → Bool) (a : α) :
    ∀ l : List α, (insertLe le a l).Perm (a :: l) := by
  intro l
  induction l with
  | nil => simp [insertLe]
  | cons b rest ih =>
    by_cases h : le a b = true
    · simp [insertLe, h]
    · simp only [insertLe, if_neg h]
      exact (ih.cons b).trans (List.Perm.swap a b rest)

theorem sortByLe_perm {α : Type} (le : α → α → Bool) (l : List α) :
    (sortByLe le l).Perm l := by
  induction l with
  | nil => simp [sortByLe]
  | cons a rest ih =>
    have : sortByLe le (a :: rest) = insertLe le a (sortByLe le rest) := rfl
    rw [this]
    exact (perm_insertLe le a (sortByLe le rest)).trans (ih.cons a)

theorem pairwise_insertLe {α : Type} (le : α → α → Bool)
    (htrans : ∀ x y z, le x y = true → le y z = true → le x z = true)
    (htot : ∀ x y, le x y = true ∨ le y x = true) (a : α) :
    ∀ l : List α, l.Pairwise (fun x y => le x y = true) →
      (insertLe le a l).Pairwise (fun x y => le x y = true) := by
  intro l
  induction l with
  | nil => simp [insertLe]
  | cons b rest ih =>
    intro hp
    rcases List.pairwise_cons.1 hp with ⟨hb, hrest⟩
    by_cases h : le a b = true
    · rw [insertLe, if_pos h]
      refine List.pairwise_cons.2 ⟨?_, hp⟩
      intro x hx
      rcases List.mem_cons.1 hx with rfl | hx
      · exact h
      · exact htrans a b x h (hb x hx)
    · rw [insertLe, if_neg h]
      refine List.pairwise_cons.2 ⟨?_, ih hrest⟩
      intro x hx
      rcases (mem_insertLe le a x rest).1 hx with heq | hx
      · rw [heq]
        rcases htot a b with h1 | h1
        · exact absurd h1 h
        · exact h1
      · exact hb x hx

theorem sortByLe_pairwise {α : Type} (le : α → α → Bool)
    (htrans : ∀ x y z, le x y = true → le y z = true → le x z = true)
    (htot : ∀ x y, le x y = true ∨ le y x = true) (l : List α) :
    (sortByLe le l).Pairwise (fun x y => le x y = true) := by
  induction l with
  | nil => simp [sortByLe]
  | cons a rest ih => exact pairwise_insertLe le htrans htot a _ ih

/-! ### lexLe and bizLe are total preorders -/

theorem lexLe_total : ∀ as bs : List Char, lexLe as bs = true ∨ lexLe bs as = true := by
  intro as
  induction as with
  | nil => intro bs; left; rfl
  | cons a as ih =>
    intro bs
    cases bs with
    | nil => right; rfl
    | cons b bs =>
      by_cases h1 : a.toNat < b.toNat
      · left; simp [lexLe, h1]
      · by_cases h2 : b.toNat < a.toNat
        · right; simp [lexLe, h2]
        · rcases ih bs with h | h
          · left; simp [lexLe, h1, h2, h]
          · right; simp [lexLe, h1, h2, h]

theorem lexLe_trans : ∀ as bs cs : List Char,
    lexLe as bs = true → lexLe bs cs = true → lexLe as cs = true := by
  intro as
  induction as with
  | nil => intro bs cs _ _; rfl
  | cons a as ih =>
    intro bs cs hab hbc
    cases bs with
    | nil => simp [lexLe] at hab
    | cons b bs =>
      cases cs with
      | nil => simp [lexLe] at hbc
      | cons c cs =>
        simp only [lexLe] at hab hbc ⊢
        by_cases h1 : a.toNat < b.toNat
        · by_cases h2 : b.toNat < c.toNat
          · simp [Nat.lt_trans h1 h2]
          · simp only [if_pos h1] at hab
            by_cases h3 : c.toNat < b.toNat
            · simp [if_neg h2, if_pos h3] at hbc
            · have hbc' : b.toNat = c.toNat := Nat.le_antisymm (Nat.not_lt.1 h3) (Nat.not_lt.1 h2)
              simp [hbc' ▸ h1]
        · by_cases h3 : b.toNat < a.toNat
          · simp [if_neg h1, if_pos h3] at hab
          · have hab' : a.toNat = b.toNat := Nat.le_antisymm (Nat.not_lt.1 h3) (Nat.not_lt.1 h1)
            simp only [if_neg h1, if_neg h3] at hab
            by_cases h2 : b.toNat < c.toNat
            · simp [hab' ▸ h2]
            · by_cases h4 : c.toNat < b.toNat
              · simp [if_neg h2, if_pos h4] at hbc
              · simp only [if_neg h2, if_neg h4] at hbc
                simp [hab', if_neg h2, if_neg h4, ih bs cs hab hbc]

theorem bizLe_total : ∀ a b : Business, bizLe a b = true ∨ bizLe b a = true := by
  intro a b
  by_cases h1 : b.data_completeness_score < a.data_completeness_score
  · left; simp [bizLe, h1]
  · by_cases h2 : a.data_completeness_score < b.data_completeness_score
    · right; simp [bizLe, h2]
    · rcases lexLe_total (lowerStr a.business_name).data (lowerStr b.business_name).data with h | h
      · left; simp [bizLe, h1, h2, h]
      · right; simp [bizLe, h1, h2, h]

theorem bizLe_trans : ∀ a b c : Business,
    bizLe a b = true → bizLe b c = true → bizLe a c = true := by
  intro a b c hab hbc
  simp only [bizLe] at hab hbc ⊢
  by_cases h1 : b.data_completeness_score < a.data_completeness_score
  · by_cases h2 : c.data_completeness_score < b.data_completeness_score
    · simp [Nat.lt_trans h2 h1]
    · simp only [if_pos h1] at hab
      by_cases h3 : b.data_completeness_score < c.data_completeness_score
      · simp [if_neg h2, if_pos h3] at hbc
      · have : b.data_completeness_score = c.data_completeness_score :=
          Nat.le_antisymm (Nat.not_lt.1 h2) (Nat.not_lt.1 h3)
        simp [this ▸ h1]
  · by_cases h3 : a.data_completeness_score < b.data_completeness_score
    · simp [if_neg h1, if_pos h3] at hab
    · have hab' : a.data_completeness_score = b.data_completeness_score :=
        Nat.le_antisymm (Nat.not_lt.1 h1) (Nat.not_lt.1 h3)
      simp only [if_neg h1, if_neg h3] at hab
      by_cases h2 : c.data_completeness_score < b.data_completeness_score
      · simp [hab' ▸ h2]
      · by_cases h4 : b.data_completeness_score < c.data_completeness_score
        · simp [if_neg h2, if_pos h4] at hbc
        · simp only [if_neg h2, if_neg h4] at hbc
          have h2' : ¬ c.data_completeness_score < a.data_completeness_score := hab' ▸ h2
          have h4' : ¬ a.data_completeness_score < c.data_completeness_score := hab' ▸ h4
          simp [if_neg h2', if_neg h4', lexLe_trans _ _ _ hab hbc]

theorem sortedResults_pairwise (st : EngineState) :
    (sortedResults st).Pairwise (fun x y => bizLe x y = true) :=
  sortByLe_pairwise bizLe bizLe_trans bizLe_total _

theorem mem_sortedResults (st : EngineState) (b : Business) :
    b ∈ sortedResults st ↔ b ∈ st.businesses.map (fun p => p.2) :=
  (sortByLe_perm bizLe _).mem_iff

/-! ### The enrichment scraper only returns non-fake emails -/

theorem mem_extract_emails_not_fake (body e : String) (h : e ∈ extract_emails body) :
    is_fake_email e = false := by
  unfold extract_emails at h
  split at h
  · simp at h
  · have := (List.mem_filter.1 h).2
    simpa using this

theorem scrapePages_not_fake (o : Oracles) (em : String) :
    ∀ ps : List String, scrapePages o ps = some em → is_fake_email em = false := by
  intro ps
  induction ps with
  | nil => intro h; simp [scrapePages] at h
  | cons p rest ih =>
    intro h
    simp only [scrapePages] at h
    cases hf : o.fetchPage p with
    | none => simp only [hf] at h; exact ih h
    | some body =>
      simp only [hf] at h
      cases he : extract_emails body with
      | nil => simp only [he] at h; exact ih h
      | cons e tail =>
        simp only [he] at h
        have hee : e = em := by simpa using h
        exact hee ▸ mem_extract_emails_not_fake body e (by rw [he]; exact List.mem_cons_self _ _)

theorem scrape_email_not_fake (o : Oracles) (w em : String)
    (h : scrape_email o w = some em) : is_fake_email em = false := by
  unfold scrape_email at h
  split at h
  · simp at h
  · exact scrapePages_not_fake o em _ h

/-! ### Facts about buildCandidate and processPlace -/

theorem buildCandidate_fields (o : Oracles) (s0 : Stats) (det : DetailsResult) (place : Place)
    (kw : String) :
    (buildCandidate o s0 det place kw).1.google_place_id = place.place_id ∧
    (buildCandidate o s0 det place kw).1.website = det.website.getD "" ∧
    (buildCandidate o s0 det place kw).1.search_keyword = kw := by
  unfold buildCandidate
  dsimp only
  repeat' split
  all_goals exact ⟨rfl, rfl, rfl⟩

theorem buildCandidate_email_ok (o : Oracles) (s0 : Stats) (det : DetailsResult) (place : Place)
    (kw : String) :
    is_fake_email (buildCandidate o s0 det place kw).1.email = false ∧
    (buildCandidate o s0 det place kw).2.fake_emails = s0.fake_emails := by
  have hscr : ∀ em,
      (if det.website.getD "" ≠ "" then scrape_email o (det.website.getD "") else none) = some em →
      is_fake_email em = false := by
    intro em h
    split at h
    · exact scrape_email_not_fake o _ em h
    · simp at h
  unfold buildCandidate
  dsimp only
  generalize hgen :
    (if det.website.getD "" ≠ "" then scrape_email o (det.website.getD "") else none) = scraped
  rw [hgen] at hscr
  cases scraped with
  | none =>
    have h0 : is_fake_email "" = false := by decide
    split <;> simp [h0]
  | some em =>
    have hem : is_fake_email em = false := hscr em rfl
    split <;> simp [hem]

/-- Everything `_process_place` guarantees about an accepted candidate:
the duplicate guards were passed, the Business is the built candidate with
its score field set, and the score meets the threshold. -/
theorem processPlace_some_spec (o : Oracles) (st : EngineState) (place : Place) (kw : String)
    (b : Business) (s : Stats) (h : processPlace o st place kw = (some b, s)) :
    place.place_id ≠ "" ∧
    hasKey st.businesses place.place_id = false ∧
    (match getDomain ((o.details place.place_id).website.getD "") with
      | some d => decide (d ≠ "") && hasKey st.seen_domains d
      | none => false) = false ∧
    b = { (buildCandidate o st.stats (o.details place.place_id) place kw).1 with
          data_completeness_score :=
            calc_completeness (buildCandidate o st.stats (o.details place.place_id) place kw).1 } ∧
    s = (buildCandidate o st.stats (o.details place.place_id) place kw).2 ∧
    2 ≤ b.data_completeness_score := by
  unfold processPlace at h
  dsimp only at h
  split at h
  · simp at h
  · rename_i hguard1
    split at h
    · simp at h
    · rename_i hguard2
      split at h
      · simp at h
      · rename_i hscore
        have hb : some _ = some b := congrArg Prod.fst h
        have hs : _ = s := congrArg Prod.snd h
        obtain rfl : _ = b := Option.some.inj hb
        refine ⟨?_, ?_, ?_, rfl, hs.symm, ?_⟩
        · intro he
          exact hguard1 (by simp [he])
        · by_cases hk : hasKey st.businesses place.place_id = true
          · exact absurd (by simp [hk]) hguard1
          · simpa using hk
        · by_cases hd : (match getDomain ((o.details place.place_id).website.getD "") with
              | some d => decide (d ≠ "") && hasKey st.seen_domains d
              | none => false) = true
          · exact absurd hd hguard2
          · simpa using hd
        · exact Nat.not_lt.1 hscore

/-- The duplicate branch of `_process_place`: a falsy or already-present
place id is rejected and counted as a duplicate. -/
theorem processPlace_dup_pid (o : Oracles) (st : EngineState) (place : Place) (kw : String)
    (h : place.place_id = "" ∨ hasKey st.businesses place.place_id = true) :
    processPlace o st place kw =
      (none, { st.stats with duplicates := st.stats.duplicates + 1 }) := by
  unfold processPlace
  dsimp only
  have : (decide (place.place_id = "") || hasKey st.businesses place.place_id) = true := by
    rcases h with h | h
    · simp [h]
    · simp [h]
  rw [if_pos this]

/-- The domain-duplicate branch of `_process_place`: a candidate whose truthy
normalized domain is already registered is rejected and counted as a
duplicate. -/
theorem processPlace_dup_domain (o : Oracles) (st : EngineState) (place : Place) (kw : String)
    (d : String) (hpid : place.place_id ≠ "")
    (hnew : hasKey st.businesses place.place_id = false)
    (hdom : getDomain ((o.details place.place_id).website.getD "") = some d)
    (hd : d ≠ "") (hseen : hasKey st.seen_domains d = true) :
    processPlace o st place kw =
      (none, { st.stats with duplicates := st.stats.duplicates + 1 }) := by
  unfold processPlace
  dsimp only
  have h1 : (decide (place.place_id = "") || hasKey st.businesses place.place_id) = false := by
    simp [hpid, hnew]
  rw [if_neg (by simp [h1])]
  have h2 : (match getDomain ((o.details place.place_id).website.getD "") with
      | some d => decide (d ≠ "") && hasKey st.seen_domains d
      | none => false) = true := by
    rw [hdom]
    simp [hd, hseen]
  rw [if_pos h2]

/-- The threshold branch of `_process_place`: a candidate that passes both
duplicate guards but whose completeness score is below 2 is rejected and
counted as validation-failed. -/
theorem processPlace_below_threshold (o : Oracles) (st : EngineState) (place : Place)
    (kw : String) (hpid : place.place_id ≠ "")
    (hnew : hasKey st.businesses place.place_id = false)
    (hdom : (match getDomain ((o.details place.place_id).website.getD "") with
      | some d => decide (d ≠ "") && hasKey st.seen_domains d
      | none => false) = false)
    (hscore : calc_completeness (buildCandidate o st.stats (o.details place.place_id) place kw).1 < 2) :
    processPlace o st place kw =
      (none, { (buildCandidate o st.stats (o.details place.place_id) place kw).2 with
               validation_failed :=
                 (buildCandidate o st.stats (o.details place.place_id) place kw).2.validation_failed + 1 }) := by
  unfold processPlace
  dsimp only
  have h1 : (decide (place.place_id = "") || hasKey st.businesses place.place_id) = false := by
    simp [hpid, hnew]
  have h2 : ¬ ((match getDomain ((o.details place.place_id).website.getD "") with
      | some d => decide (d ≠ "") && hasKey st.seen_domains d
      | none => false) = true) := by
    rw [hdom]; exact Bool.false_ne_true
  rw [if_neg (by simp [h1]), if_neg h2, if_pos hscore]

/-! ### Invariant preservation machinery -/

theorem stepInv_foldl {P : EngineState → Prop} (hP : StepInv P) (o : Oracles) (kw : String) :
    ∀ (places : List Place) (st : EngineState),
      P st → P (places.foldl (processOne o kw) st) := by
  intro places
  induction places with
  | nil => intro st h; exact h
  | cons p rest ih => intro st h; exact ih _ (hP o kw st p h)

theorem stepInv_searchLoc {P : EngineState → Prop} (hP : StepInv P) (o : Oracles) (kw : String) :
    ∀ (trace : List PageResp) (quota : Bool) (st : EngineState),
      P st → P (searchLoc o kw trace quota st).1 := by
  intro trace
  induction trace with
  | nil => intro q st h; exact h
  | cons resp rest ih =>
    intro q st h
    rw [searchLoc]
    split
    · split
      · exact h
      · exact ih _ _ h
    · split
      · exact h
      · split
        · exact stepInv_foldl hP o kw _ _ h
        · exact ih _ _ (stepInv_foldl hP o kw _ _ h)

theorem stepInv_runGo {P : EngineState → Prop} (hP : StepInv P) (o : Oracles)
    (traces : Nat → List PageResp) (minR : Nat) :
    ∀ (pairs : List (String × String)) (step : Nat) (quota : Bool) (st : EngineState),
      P st → P (runGo o traces minR pairs step quota st).1 := by
  intro pairs
  induction pairs with
  | nil => intro _ _ st h; exact h
  | cons p rest ih =>
    intro step q st h
    obtain ⟨kw, c⟩ := p
    rw [runGo]
    split
    · exact stepInv_searchLoc hP o kw _ _ _ h
    · exact ih _ _ _ (stepInv_searchLoc hP o kw _ _ _ h)

theorem stepInv_run {P : EngineState → Prop} (hP : StepInv P) (hinit : P {})
    (o : Oracles) (traces : Nat → List PageResp) (cfg : RunConfig) :
    P (run o traces cfg).finalState := by
  unfold run
  dsimp only
  split
  · exact hinit
  · exact stepInv_runGo hP o traces _ _ _ _ _ hinit

theorem run_results_eq (o : Oracles) (traces : Nat → List PageResp) (cfg : RunConfig) :
    (run o traces cfg).results = sortedResults (run o traces cfg).finalState := by
  unfold run
  dsimp only
  split
  · rfl
  · rfl

theorem hasKey_eq_true_iff {α : Type} (l : List (String × α)) (k : String) :
    hasKey l k = true ↔ ∃ p ∈ l, p.1 = k := by
  simp [hasKey, List.any_eq_true]

theorem hasKey_eq_false_iff {α : Type} (l : List (String × α)) (k : String) :
    hasKey l k = false ↔ ∀ p ∈ l, p.1 ≠ k := by
  rw [Bool.eq_false_iff, Ne, hasKey_eq_true_iff]
  constructor
  · intro h p hp he
    exact h ⟨p, hp, he⟩
  · rintro h ⟨p, hp, he⟩
    exact h p hp he

theorem hasKey_append {α : Type} (l m : List (String × α)) (k : String) :
    hasKey (l ++ m) k = (hasKey l k || hasKey m k) := by
  simp [hasKey]

theorem stepInv_C1Inv : StepInv C1Inv := by
  intro o kw st place h
  unfold processOne
  dsimp only
  cases hpp : processPlace o
      { st with stats := { st.stats with total_searched := st.stats.total_searched + 1 } }
      place kw with
  | mk ob s =>
    cases ob with
    | none => exact h
    | some b =>
      obtain ⟨hpid, hnew, hguard, hb, _hs, _hsc⟩ :=
        processPlace_some_spec o _ place kw b s hpp
      obtain ⟨hgid0, hweb0, _⟩ :=
        buildCandidate_fields o st.stats (o.details place.place_id) place kw
      have hgid : b.google_place_id = place.place_id := by rw [hb]; exact hgid0
      have hweb : b.website = (o.details place.place_id).website.getD "" := by
        rw [hb]; exact hweb0
      -- the domain guard in terms of b
      have hguard' : ∀ d, domKey b = some d → hasKey st.seen_domains d = false := by
        intro d hd
        unfold domKey at hd
        rw [hweb] at hd
        cases hg : getDomain ((o.details place.place_id).website.getD "") with
        | none => simp [hg] at hd
        | some d0 =>
          simp only [hg] at hd
          simp only [hg] at hguard
          by_cases h0 : d0 = ""
          · rw [if_pos h0] at hd; simp at hd
          · rw [if_neg h0] at hd
            obtain rfl : d0 = d := by simpa using hd
            simpa [h0] using hguard
      obtain ⟨hnd, hkey, hreg, hpw⟩ := h
      have hnotin : ∀ p ∈ st.businesses, p.1 ≠ place.place_id :=
        (hasKey_eq_false_iff _ _).1 hnew
      refine ⟨?_, ?_, ?_, ?_⟩
      · rw [List.map_append]
        simp only [List.map_cons, List.map_nil]
        rw [List.nodup_append]
        refine ⟨hnd, List.nodup_singleton _, ?_⟩
        intro x hx
        simp only [List.mem_singleton]
        intro hxe
        obtain ⟨p, hp, hpe⟩ := List.mem_map.1 hx
        exact hnotin p hp (by rw [hpe, hxe, hgid])
      · intro p hp
        rcases List.mem_append.1 hp with hp | hp
        · exact hkey p hp
        · obtain rfl : p = (b.google_place_id, b) := by simpa using hp
          rfl
      · intro p hp d hd
        rcases List.mem_append.1 hp with hp | hp
        · have hold := hreg p hp d hd
          cases hg : getDomain b.website with
          | none => simp only [hg]; exact hold
          | some d0 =>
            simp only [hg]
            by_cases h0 : d0 = ""
            · rw [if_neg (by simp [h0])]
              exact hold
            · rw [if_pos h0, hasKey_append, hold]
              rfl
        · obtain rfl : p = (b.google_place_id, b) := by simpa using hp
          unfold domKey at hd
          cases hg : getDomain b.website with
          | none => simp [hg] at hd
          | some d0 =>
            simp only [hg] at hd
            by_cases h0 : d0 = ""
            · rw [if_pos h0] at hd; simp at hd
            · rw [if_neg h0] at hd
              obtain rfl : d0 = d := by simpa using hd
              simp only [hg]
              rw [if_pos h0, hasKey_append]
              simp [hasKey]
      · rw [List.pairwise_append]
        refine ⟨hpw, List.pairwise_singleton _ _, ?_⟩
        intro p hp q hq d hpd
        obtain rfl : q = (b.google_place_id, b) := by simpa using hq
        intro hbd
        have := hreg p hp d hpd
        rw [hguard' d hbd] at this
        exact Bool.false_ne_true this

theorem stepInv_C2Inv : StepInv C2Inv := by
  intro o kw st place h
  unfold processOne
  dsimp only
  cases hpp : processPlace o
      { st with stats := { st.stats with total_searched := st.stats.total_searched + 1 } }
      place kw with
  | mk ob s =>
    cases ob with
    | none => exact h
    | some b =>
      obtain ⟨_, _, _, hb, _, hsc⟩ := processPlace_some_spec o _ place kw b s hpp
      intro p hp
      rcases List.mem_append.1 hp with hp | hp
      · exact h p hp
      · obtain rfl : p = (b.google_place_id, b) := by simpa using hp
        have hcalc : calc_completeness b =
            calc_completeness (buildCandidate o st.stats (o.details place.place_id) place kw).1 := by
          rw [hb]; rfl
        have hscore : b.data_completeness_score =
            calc_completeness (buildCandidate o st.stats (o.details place.place_id) place kw).1 := by
          rw [hb]; rfl
        constructor
        · rw [hcalc, ← hscore]; exact hsc
        · rw [hscore, hcalc]

theorem stepInv_C10Inv : StepInv C10Inv := by
  intro o kw st place h
  unfold processOne
  dsimp only
  cases hpp : processPlace o
      { st with stats := { st.stats with total_searched := st.stats.total_searched + 1 } }
      place kw with
  | mk ob s =>
    cases ob with
    | none => exact h
    | some b =>
      obtain ⟨_, _, _, hb, _, _⟩ := processPlace_some_spec o _ place kw b s hpp
      intro p hp
      rcases List.mem_append.1 hp with hp | hp
      · exact h p hp
      · obtain rfl : p = (b.google_place_id, b) := by simpa using hp
        have : b.email = (buildCandidate o st.stats (o.details place.place_id) place kw).1.email := by
          rw [hb]; rfl
        rw [this]
        exact (buildCandidate_email_ok o st.stats (o.details place.place_id) place kw).1

/-- `_process_place` never increments the fake-email counter: the candidate
email is either absent or comes from `extract_emails`, which already filters
fake addresses. -/
theorem processPlace_fake_emails (o : Oracles) (st : EngineState) (place : Place) (kw : String) :
    (processPlace o st place kw).2.fake_emails = st.stats.fake_emails := by
  unfold processPlace
  dsimp only
  split
  · rfl
  · split
    · rfl
    · split
      · exact (buildCandidate_email_ok o st.stats (o.details place.place_id) place kw).2
      · exact (buildCandidate_email_ok o st.stats (o.details place.place_id) place kw).2

theorem processOne_fake_emails (o : Oracles) (kw : String) (st : EngineState) (place : Place) :
    (processOne o kw st place).stats.fake_emails = st.stats.fake_emails := by
  unfold processOne
  dsimp only
  have hfe := processPlace_fake_emails o
    { st with stats := { st.stats with total_searched := st.stats.total_searched + 1 } } place kw
  cases hpp : processPlace o
      { st with stats := { st.stats with total_searched := st.stats.total_searched + 1 } }
      place kw with
  | mk ob s =>
    rw [hpp] at hfe
    cases ob with
    | none => exact hfe
    | some b => exact hfe

/-- Full characterization of the target-check loop of `run`: either the
target is first reached after the `n`-th (keyword, city) pair and the loop
stops there with "Target reached", or every pair is searched without ever
reaching the target and the loop ends with "All locations exhausted". -/
theorem runGo_spec (o : Oracles) (traces : Nat → List PageResp) (minR : Nat) :
    ∀ (pairs : List (String × String)) (step : Nat) (quota : Bool) (st : EngineState),
      (∃ n, n < pairs.length ∧
        runGo o traces minR pairs step quota st =
          ((runAllPairs o traces (pairs.take (n + 1)) step quota st).1, "Target reached") ∧
        minR ≤ (runAllPairs o traces (pairs.take (n + 1)) step quota st).1.businesses.length ∧
        ∀ j < n, (runAllPairs o traces (pairs.take (j + 1)) step quota st).1.businesses.length < minR)
      ∨ (runGo o traces minR pairs step quota st =
          ((runAllPairs o traces pairs step quota st).1, "All locations exhausted") ∧
        ∀ j < pairs.length,
          (runAllPairs o traces (pairs.take (j + 1)) step quota st).1.businesses.length < minR) := by
  intro pairs
  induction pairs with
  | nil =>
    intro step q st
    right
    exact ⟨rfl, fun j hj => absurd hj (Nat.not_lt_zero j)⟩
  | cons p rest ih =>
    intro step q st
    obtain ⟨kw, c⟩ := p
    by_cases htgt : minR ≤ (searchLoc o kw (traces step) q st).1.businesses.length
    · left
      refine ⟨0, by simp, ?_, ?_, ?_⟩
      · simp only [runGo]
        rw [if_pos htgt]
        rfl
      · exact htgt
      · exact fun j hj => absurd hj (Nat.not_lt_zero j)
    · rcases ih (step + 1) (searchLoc o kw (traces step) q st).2.1
          (searchLoc o kw (traces step) q st).1 with
        ⟨n, hn, heq, hge, hlt⟩ | ⟨heq, hlt⟩
      · left
        refine ⟨n + 1, by simpa using Nat.succ_lt_succ hn, ?_, ?_, ?_⟩
        · simp only [runGo]
          rw [if_neg htgt]
          rw [heq]
          rfl
        · exact hge
        · intro j hj
          cases j with
          | zero => exact Nat.not_le.1 htgt
          | succ i => exact hlt i (Nat.lt_of_succ_lt_succ hj)
      · right
        refine ⟨?_, ?_⟩
        · simp only [runGo]
          rw [if_neg htgt]
          rw [heq]
          rfl
        · intro j hj
          cases j with
          | zero => exact Nat.not_le.1 htgt
          | succ i => exact hlt i (by simpa using Nat.lt_of_succ_lt_succ hj)

/-! ### Lemmas about the www-removal and the URL host -/


theorem pyReplaceWWW_cons_ne (c : Char) (l : List Char) (hc : c ≠ 'w') :
    pyReplaceWWW (c :: l) = c :: pyReplaceWWW l := by
  rw [pyReplaceWWW.eq_def]
  split
  · rename_i heq
    injection heq with h1 h2
    exact absurd h1 hc
  · rename_i c2 rest2 heq
    injection heq with h1 h2
    rw [h1, h2]
  · rename_i heq
    exact absurd heq (by simp)

theorem pyReplaceWWW_eq_self : ∀ l : List Char, (∀ c ∈ l, c ≠ 'w') → pyReplaceWWW l = l := by
  intro l
  induction l with
  | nil => intro _; rfl
  | cons c rest ih =>
    intro h
    rw [pyReplaceWWW_cons_ne c rest (h c (List.mem_cons_self _ _))]
    rw [ih (fun x hx => h x (List.mem_cons_of_mem _ hx))]

theorem pyReplaceWWW_append (a b : List Char) (ha : ∀ c ∈ a, c ≠ 'w')
    (hb : ∀ c ∈ b, c ≠ 'w') :
    pyReplaceWWW (a ++ 'w' :: 'w' :: 'w' :: '.' :: b) = a ++ b := by
  induction a with
  | nil => exact pyReplaceWWW_eq_self b hb
  | cons c a' ih =>
    rw [List.cons_append, pyReplaceWWW_cons_ne c _ (ha c (List.mem_cons_self _ _))]
    rw [ih (fun x hx => ha x (List.mem_cons_of_mem _ hx))]
    rfl

theorem netlocOf_http (s : String) :
    netlocOf ("http://" ++ s) =
      String.mk (s.data.takeWhile (fun c => c ≠ '/' && c ≠ '?' && c ≠ '#')) := rfl

theorem takeWhile_of_all {p : Char → Bool} :
    ∀ l : List Char, (∀ c ∈ l, p c = true) → l.takeWhile p = l := by
  intro l h
  exact List.takeWhile_eq_self_iff.2 h

theorem map_toLower_of_fixed :
    ∀ l : List Char, (∀ c ∈ l, c.toLower = c) → l.map Char.toLower = l := by
  intro l h
  exact (List.map_congr_left h).trans (List.map_id l)

/-! ### Lemmas about strip and hasContent (for the completeness score) -/

theorem pyStrip_eq_nil_iff (l : List Char) :
    pyStrip l = [] ↔ ∀ c ∈ l, pyIsSpace c = true := by
  unfold pyStrip
  rw [List.reverse_eq_nil_iff, List.dropWhile_eq_nil_iff]
  constructor
  · intro h c hc
    have hsplit : c ∈ l.takeWhile pyIsSpace ++ l.dropWhile pyIsSpace := by
      rw [List.takeWhile_append_dropWhile]; exact hc
    rcases List.mem_append.1 hsplit with h1 | h2
    · exact List.mem_takeWhile_imp h1
    · exact h c (List.mem_reverse.2 h2)
  · intro h c hc
    exact h c ((List.dropWhile_sublist pyIsSpace).subset (List.mem_reverse.1 hc))

theorem hasContent_eq_true_iff (s : String) :
    hasContent s = true ↔ pyStripStr s ≠ "" := by
  unfold hasContent pyStripStr
  rw [List.any_eq_true]
  constructor
  · rintro ⟨c, hc, hcp⟩ he
    have hl : pyStrip s.data = [] := congrArg String.data he
    have := (pyStrip_eq_nil_iff s.data).1 hl c hc
    simp [this] at hcp
  · intro h
    by_contra hno
    push_neg at hno
    refine h (congrArg String.mk ((pyStrip_eq_nil_iff s.data).2 ?_))
    intro c hc
    have := hno c hc
    simpa using this

/-! ### Lemmas for is_fake_email -/

theorem is_fake_email_of_domain (e d : String) (hd : d ∈ FAKE_EMAIL_DOMAINS)
    (he : endsWithStr (lowerStr e) ("@" ++ d) = true) : is_fake_email e = true := by
  have hne : e ≠ "" := by
    intro h
    subst h
    revert he
    fin_cases hd <;> decide
  unfold is_fake_email
  rw [if_neg hne]
  have : FAKE_EMAIL_DOMAINS.any (fun d => endsWithStr (lowerStr e) ("@" ++ d)) = true :=
    List.any_eq_true.2 ⟨d, hd, he⟩
  simp [this]

theorem is_fake_email_of_pre (e p : String) (hp : p ∈ FAKE_EMAIL_PREFIXES)
    (he : startsWithStr (lowerStr e) p = true) : is_fake_email e = true := by
  have hne : e ≠ "" := by
    intro h
    subst h
    revert he
    fin_cases hp <;> decide
  unfold is_fake_email
  rw [if_neg hne]
  have : FAKE_EMAIL_PREFIXES.any (fun p => startsWithStr (lowerStr e) p) = true :=
    List.any_eq_true.2 ⟨p, hp, he⟩
  simp [this]

/-! ## Claim theorems -/

/-- C4 (code bug): on an OVER_QUERY_LIMIT page the engine always abandons the
location immediately after the cooldown, consuming no further response — the
`continue` retry is unreachable, because `nearby_search` set the client's
permanent `quota_exceeded` flag on that very response and nothing ever clears
it.  The claim (and spec §4.4/§7) say a retry request is issued once; the
returned trace remainder `rest` shows no second request was made for this
location, whatever results or next-page token the rate-limited response
carries and whatever the previous quota flag was. -/
theorem c4_quota_no_retry (o : Oracles) (keyword : String) (rs : List Place)
    (npt : Option String) (rest : List PageResp) (quota : Bool) (st : EngineState) :
    searchLoc o keyword
        ({ status := "OVER_QUERY_LIMIT", results := rs, next_page_token := npt } :: rest)
        quota st =
      (st, true, rest) := by
  rw [searchLoc]
  simp

/-- C6 counterexample: `user@notexample.com` ends in the blocklisted domain
`example.com`, yet `is_fake_email` is false for it — the code compares
against `"@" + domain`, not against a bare suffix. -/
theorem c6_counterexample :
    "example.com" ∈ FAKE_EMAIL_DOMAINS ∧
    endsWithStr "user@notexample.com" "example.com" = true ∧
    is_fake_email "user@notexample.com" = false := by decide

/-- C6 (amended): an email whose lower-cased form ends in `"@"` immediately
followed by a blocklisted domain, or starts with a blocklisted prefix, is
fake; `user@realcompany.io` is not fake; the empty string is not fake. -/
theorem c6_fake_email_amended :
    (∀ e : String,
      ((∃ d ∈ FAKE_EMAIL_DOMAINS, endsWithStr (lowerStr e) ("@" ++ d) = true) ∨
       (∃ p ∈ FAKE_EMAIL_PREFIXES, startsWithStr (lowerStr e) p = true)) →
      is_fake_email e = true) ∧
    is_fake_email "user@realcompany.io" = false ∧
    is_fake_email "" = false := by
  refine ⟨?_, by decide, by decide⟩
  intro e h
  rcases h with ⟨d, hd, he⟩ | ⟨p, hp, he⟩
  · exact is_fake_email_of_domain e d hd he
  · exact is_fake_email_of_pre e p hp he

/-- C6 witness: the amended theorem applied to a concrete fake address. -/
theorem c6_fake_email_amended_witness : is_fake_email "a@test.com" = true :=
  c6_fake_email_amended.1 "a@test.com" (Or.inl ⟨"test.com", by decide, by decide⟩)

/-- C7 counterexample: for a host with an interior `"www."`, the code removes
it (Python `str.replace` removes every occurrence), while the claimed
leading-prefix-only normalization would keep it. -/
theorem c7_counterexample :
    getDomain "http://app.www.example.com" = some "app.example.com" ∧
    specDomainKey "http://app.www.example.com" = some "app.www.example.com" ∧
    getDomain "http://app.www.example.com" ≠ specDomainKey "http://app.www.example.com" := by
  decide

/-- C7 (amended): the dedup key removes every occurrence of `"www."` from the
lower-cased host, not only a leading prefix.  For any host `a ++ "www." ++ b`
whose other characters are lower-case-fixed, not `w`, and not URL delimiters,
the key is `a ++ b` — the interior `"www."` disappears. -/
theorem c7_domain_amended (a b : List Char)
    (ha : ∀ c ∈ a, goodChar c = true) (hb : ∀ c ∈ b, goodChar c = true) :
    getDomain ("http://" ++ String.mk (a ++ 'w' :: 'w' :: 'w' :: '.' :: b)) =
      some (String.mk (a ++ b)) := by
  have hga : ∀ c ∈ a, c.toLower = c ∧ ¬c = 'w' ∧ ¬c = ':' ∧ ¬c = '/' ∧ ¬c = '?' ∧ ¬c = '#' := by
    intro c hc
    have h1 := ha c hc
    unfold goodChar at h1
    simp at h1
    tauto
  have hgb : ∀ c ∈ b, c.toLower = c ∧ ¬c = 'w' ∧ ¬c = ':' ∧ ¬c = '/' ∧ ¬c = '?' ∧ ¬c = '#' := by
    intro c hc
    have h1 := hb c hc
    unfold goodChar at h1
    simp at h1
    tauto
  have hne : ("http://" ++ String.mk (a ++ 'w' :: 'w' :: 'w' :: '.' :: b)) ≠ "" := by
    intro h
    have h2 : ("http://" ++ String.mk (a ++ 'w' :: 'w' :: 'w' :: '.' :: b)).data =
        ("" : String).data := congrArg String.data h
    simp only [show ∀ s t : String, (s ++ t).data = s.data ++ t.data from fun s t => rfl] at h2
    simp at h2
  have hstart :
      startsWithStr ("http://" ++ String.mk (a ++ 'w' :: 'w' :: 'w' :: '.' :: b)) "http" = true :=
    rfl
  unfold getDomain
  rw [if_neg hne]
  dsimp only
  rw [if_pos hstart, netlocOf_http]
  have htake : (a ++ 'w' :: 'w' :: 'w' :: '.' :: b).takeWhile
      (fun c => c ≠ '/' && c ≠ '?' && c ≠ '#') = a ++ 'w' :: 'w' :: 'w' :: '.' :: b := by
    apply takeWhile_of_all
    intro c hc
    rcases List.mem_append.1 hc with h1 | h1
    · obtain ⟨_, _, _, h3, h4, h5⟩ := hga c h1
      simp [h3, h4, h5]
    · simp only [List.mem_cons] at h1
      rcases h1 with rfl | rfl | rfl | rfl | h1
      · decide
      · decide
      · decide
      · decide
      · obtain ⟨_, _, _, h3, h4, h5⟩ := hgb c h1
        simp [h3, h4, h5]
  show some (String.mk (pyReplaceWWW
      (((a ++ 'w' :: 'w' :: 'w' :: '.' :: b).takeWhile
        (fun c => c ≠ '/' && c ≠ '?' && c ≠ '#')).map Char.toLower))) =
    some (String.mk (a ++ b))
  rw [htake, List.map_append, map_toLower_of_fixed a (fun c hc => (hga c hc).1),
    List.map_cons, List.map_cons, List.map_cons, List.map_cons,
    show Char.toLower 'w' = 'w' from by decide, show Char.toLower '.' = '.' from by decide,
    map_toLower_of_fixed b (fun c hc => (hgb c hc).1),
    pyReplaceWWW_append a b (fun c hc => (hga c hc).2.1) (fun c hc => (hgb c hc).2.1)]

/-- C7 witness: the amended theorem applied to the counterexample host. -/
theorem c7_domain_amended_witness :
    getDomain ("http://" ++ String.mk ("app.".data ++ 'w' :: 'w' :: 'w' :: '.' :: "example.com".data)) =
      some (String.mk ("app.".data ++ "example.com".data)) :=
  c7_domain_amended "app.".data "example.com".data (by decide) (by decide)

/-- C9: the validator functions are total Lean functions by construction (no
partiality, no exceptions anywhere in the embedding), and empty/absent input
takes the guarded "not fake" / empty-result branch in each of them. -/
theorem c9_validator_totality :
    is_fake_phone "" = false ∧
    is_fake_email "" = false ∧
    extract_emails "" = [] ∧
    extract_city_state "" = ("", "") ∧
    calc_completeness {} = 0 := by decide

theorem countP_four_mono (p : String → Bool) (x1 x2 x3 x4 v : String) (h : p x1 = false) :
    List.countP p [x1, x2, x3, x4] ≤ List.countP p [v, x2, x3, x4] := by
  cases h2 : p x2 <;> cases h3 : p x3 <;> cases h4 : p x4 <;> cases hv : p v <;>
    simp [List.countP_cons, h, h2, h3, h4, hv]

/-- C8: the completeness score is the number of the four contact fields that
are non-empty after stripping whitespace, it never exceeds 4 (and, being a
Nat, never drops below 0), and filling any previously-empty field with a
non-empty value never decreases it. -/
theorem c8_completeness (b : Business) :
    calc_completeness b =
      List.countP (fun f => pyStripStr f ≠ "")
        [b.phone_number, b.email, b.website, b.address] ∧
    calc_completeness b ≤ 4 ∧
    (∀ v : String, v ≠ "" → b.phone_number = "" →
      calc_completeness b ≤ calc_completeness { b with phone_number := v }) ∧
    (∀ v : String, v ≠ "" → b.email = "" →
      calc_completeness b ≤ calc_completeness { b with email := v }) ∧
    (∀ v : String, v ≠ "" → b.website = "" →
      calc_completeness b ≤ calc_completeness { b with website := v }) ∧
    (∀ v : String, v ≠ "" → b.address = "" →
      calc_completeness b ≤ calc_completeness { b with address := v }) := by
  have hcontent : ∀ f : String, f = "" → hasContent f = false := by
    intro f hf; rw [hf]; decide
  refine ⟨?_, ?_, ?_, ?_, ?_, ?_⟩
  · unfold calc_completeness
    refine List.countP_congr ?_
    intro x _
    rw [hasContent_eq_true_iff, decide_eq_true_iff]
  · exact List.countP_le_length _
  · intro v _ h
    unfold calc_completeness
    dsimp only
    exact countP_four_mono hasContent _ _ _ _ v (hcontent _ h)
  · intro v _ h
    unfold calc_completeness
    dsimp only
    -- move the email position to the front of the count
    have := countP_four_mono hasContent b.email b.phone_number b.website b.address v (hcontent _ h)
    simp only [List.countP_cons, List.countP_nil] at this ⊢
    omega
  · intro v _ h
    unfold calc_completeness
    dsimp only
    have := countP_four_mono hasContent b.website b.phone_number b.email b.address v (hcontent _ h)
    simp only [List.countP_cons, List.countP_nil] at this ⊢
    omega
  · intro v _ h
    unfold calc_completeness
    dsimp only
    have := countP_four_mono hasContent b.address b.phone_number b.email b.website v (hcontent _ h)
    simp only [List.countP_cons, List.countP_nil] at this ⊢
    omega

/-- C8 witness: the theorem applied to the empty Business and one update. -/
theorem c8_completeness_witness :
    calc_completeness ({} : Business) ≤ calc_completeness ({ phone_number := "x" } : Business) :=
  (c8_completeness {}).2.2.1 "x" (by decide) rfl

/-- C3 counterexample: two distinct Businesses with equal score and equal
case-insensitive name.  The stable sort keeps them in discovery order, so the
later one does not precede the earlier although its name is ≤ the other's —
the claimed "exactly when the name is ≤" biconditional fails, and the order
of such ties does depend on discovery order. -/
theorem c3_counterexample : ¬ c3Statement (sortedResults stC3) := by
  intro h
  have h1 := (h bAcme2 bAcme1 (by decide) (by decide) (by decide)).2 rfl
  have h2 := h1.mpr (by decide)
  exact absurd h2 (by decide)

/-- C3 (amended): in every final sorted list, positions respect the key
(-score, lower-cased name): a later element never has a larger score, and on
equal scores the lower-cased names are nondecreasing.  (Strictly greater
score therefore always comes first; full ties keep discovery order, the
stable-sort tie-break, rather than being unordered by name.) -/
theorem c3_sorted_amended (st : EngineState) (i j : Fin (sortedResults st).length)
    (hij : i < j) :
    ((sortedResults st).get j).data_completeness_score ≤
      ((sortedResults st).get i).data_completeness_score ∧
    (((sortedResults st).get i).data_completeness_score =
        ((sortedResults st).get j).data_completeness_score →
      lexLe (lowerStr ((sortedResults st).get i).business_name).data
        (lowerStr ((sortedResults st).get j).business_name).data = true) := by
  have hle := (List.pairwise_iff_get.1 (sortedResults_pairwise st)) i j hij
  unfold bizLe at hle
  constructor
  · by_cases h1 : ((sortedResults st).get j).data_completeness_score <
        ((sortedResults st).get i).data_completeness_score
    · exact Nat.le_of_lt h1
    · by_cases h2 : ((sortedResults st).get i).data_completeness_score <
          ((sortedResults st).get j).data_completeness_score
      · rw [if_neg h1, if_pos h2] at hle
        exact absurd hle (by decide)
      · exact Nat.not_lt.1 h2
  · intro heq
    rw [if_neg (by omega), if_neg (by omega)] at hle
    exact hle

/-- C3 witness: the amended theorem applied to a concrete two-element state. -/
theorem c3_sorted_amended_witness :
    ((sortedResults stC3).get ⟨1, by decide⟩).data_completeness_score ≤
      ((sortedResults stC3).get ⟨0, by decide⟩).data_completeness_score :=
  (c3_sorted_amended stC3 ⟨0, by decide⟩ ⟨1, by decide⟩ (by decide)).1

/-- C1: dedup uniqueness.  In every finished run the returned Businesses have
pairwise-distinct place ids and pairwise-distinct truthy domain keys; and
`_process_place` rejects (counting a duplicate, adding nothing) any candidate
whose place id is already stored, and any candidate whose truthy normalized
domain is already registered. -/
theorem c1_dedup_invariant :
    (∀ (o : Oracles) (traces : Nat → List PageResp) (cfg : RunConfig),
      ((run o traces cfg).results.map (fun b => b.google_place_id)).Nodup ∧
      (run o traces cfg).results.Pairwise
        (fun x y => ∀ d, domKey x = some d → domKey y ≠ some d)) ∧
    (∀ (o : Oracles) (st : EngineState) (place : Place) (kw : String),
      hasKey st.businesses place.place_id = true →
      processPlace o st place kw =
        (none, { st.stats with duplicates := st.stats.duplicates + 1 })) ∧
    (∀ (o : Oracles) (st : EngineState) (place : Place) (kw : String) (d : String),
      place.place_id ≠ "" → hasKey st.businesses place.place_id = false →
      getDomain ((o.details place.place_id).website.getD "") = some d → d ≠ "" →
      hasKey st.seen_domains d = true →
      processPlace o st place kw =
        (none, { st.stats with duplicates := st.stats.duplicates + 1 })) := by
  refine ⟨?_, ?_, ?_⟩
  · intro o traces cfg
    have hinv : C1Inv (run o traces cfg).finalState :=
      stepInv_run stepInv_C1Inv ⟨List.nodup_nil, by simp, by simp, List.Pairwise.nil⟩ o traces cfg
    obtain ⟨hnd, hkey, _, hpw⟩ := hinv
    have hperm : (run o traces cfg).results.Perm
        ((run o traces cfg).finalState.businesses.map (fun p => p.2)) := by
      rw [run_results_eq]
      exact sortByLe_perm bizLe _
    constructor
    · have hmapeq : ((run o traces cfg).finalState.businesses.map (fun p => p.2)).map
          (fun b => b.google_place_id) =
          (run o traces cfg).finalState.businesses.map Prod.fst := by
        rw [List.map_map]
        exact List.map_congr_left (fun p hp => (hkey p hp).symm)
      have := (hperm.map (fun b => b.google_place_id)).nodup_iff
      rw [hmapeq] at this
      exact this.2 hnd
    · have hsym : ∀ {x y : Business},
          (∀ d, domKey x = some d → domKey y ≠ some d) →
          (∀ d, domKey y = some d → domKey x ≠ some d) := by
        intro x y hxy d hyd hxd
        exact hxy d hxd hyd
      have hpwv : ((run o traces cfg).finalState.businesses.map (fun p => p.2)).Pairwise
          (fun x y => ∀ d, domKey x = some d → domKey y ≠ some d) := by
        rw [List.pairwise_map]
        exact hpw
      exact (hperm.pairwise_iff hsym).2 hpwv
  · intro o st place kw h
    exact processPlace_dup_pid o st place kw (Or.inr h)
  · intro o st place kw d h1 h2 h3 h4 h5
    exact processPlace_dup_domain o st place kw d h1 h2 h3 h4 h5

/-- C1 witness: both duplicate branches of the theorem at concrete inputs. -/
theorem c1_dedup_invariant_witness :
    processPlace oW stW { place_id := "p1" } "kw" =
      (none, { stW.stats with duplicates := stW.stats.duplicates + 1 }) ∧
    processPlace oW2 stW { place_id := "p2" } "kw" =
      (none, { stW.stats with duplicates := stW.stats.duplicates + 1 }) :=
  ⟨c1_dedup_invariant.2.1 oW stW { place_id := "p1" } "kw" (by decide),
   c1_dedup_invariant.2.2 oW2 stW { place_id := "p2" } "kw" "acme.com"
     (by decide) (by decide) (by decide) (by decide) (by decide)⟩

/-- C2: threshold invariant.  Every Business of every finished run scores at
least 2 (and stores its own completeness score); and a candidate that passes
the duplicate guards but scores below 2 is rejected with no Business and a
validation-failed count. -/
theorem c2_threshold_invariant :
    (∀ (o : Oracles) (traces : Nat → List PageResp) (cfg : RunConfig),
      ∀ b ∈ (run o traces cfg).results,
        2 ≤ calc_completeness b ∧ b.data_completeness_score = calc_completeness b) ∧
    (∀ (o : Oracles) (st : EngineState) (place : Place) (kw : String),
      place.place_id ≠ "" →
      hasKey st.businesses place.place_id = false →
      (match getDomain ((o.details place.place_id).website.getD "") with
        | some d => decide (d ≠ "") && hasKey st.seen_domains d
        | none => false) = false →
      calc_completeness (buildCandidate o st.stats (o.details place.place_id) place kw).1 < 2 →
      processPlace o st place kw =
        (none, { (buildCandidate o st.stats (o.details place.place_id) place kw).2 with
                 validation_failed :=
                   (buildCandidate o st.stats (o.details place.place_id) place kw).2.validation_failed + 1 })) := by
  constructor
  · intro o traces cfg b hb
    have hinv : C2Inv (run o traces cfg).finalState :=
      stepInv_run stepInv_C2Inv (by intro p hp; simp at hp) o traces cfg
    rw [run_results_eq, mem_sortedResults] at hb
    obtain ⟨p, hp, rfl⟩ := List.mem_map.1 hb
    exact hinv p hp
  · intro o st place kw h1 h2 h3 h4
    exact processPlace_below_threshold o st place kw h1 h2 h3 h4

/-- C2 witness: a detail-less candidate (every contact field empty) is
rejected as validation-failed. -/
theorem c2_threshold_invariant_witness :
    processPlace oW { businesses := [], seen_domains := [], stats := {} } { place_id := "p3" } "kw" =
      (none, { (buildCandidate oW ({} : Stats) (oW.details "p3") { place_id := "p3" } "kw").2 with
               validation_failed :=
                 (buildCandidate oW ({} : Stats) (oW.details "p3") { place_id := "p3" } "kw").2.validation_failed + 1 }) :=
  c2_threshold_invariant.2 oW { businesses := [], seen_domains := [], stats := {} }
    { place_id := "p3" } "kw" (by decide) (by decide) (by decide) (by decide)

/-- C10 (implicit): the fake-email discard branch of `_process_place` is
unreachable.  The candidate email is either absent or supplied by the
scraper, whose results come from `extract_emails` and are never fake, so
`_process_place` never increments the fake-email counter, the counter is 0
after every run, and every returned Business has a non-fake email. -/
theorem c10_no_fake_email :
    (∀ (o : Oracles) (st : EngineState) (place : Place) (kw : String),
      (processPlace o st place kw).2.fake_emails = st.stats.fake_emails) ∧
    (∀ (o : Oracles) (w em : String),
      scrape_email o w = some em → is_fake_email em = false) ∧
    (∀ (o : Oracles) (traces : Nat → List PageResp) (cfg : RunConfig),
      (run o traces cfg).finalState.stats.fake_emails = 0 ∧
      ∀ b ∈ (run o traces cfg).results, is_fake_email b.email = false) := by
  refine ⟨processPlace_fake_emails, scrape_email_not_fake, ?_⟩
  intro o traces cfg
  constructor
  · have hstep : StepInv (fun st => st.stats.fake_emails = 0) := by
      intro o1 kw st place h
      rw [processOne_fake_emails]
      exact h
    exact stepInv_run hstep rfl o traces cfg
  · intro b hb
    have hinv : C10Inv (run o traces cfg).finalState :=
      stepInv_run stepInv_C10Inv (by intro p hp; simp at hp) o traces cfg
    rw [run_results_eq, mem_sortedResults] at hb
    obtain ⟨p, hp, rfl⟩ := List.mem_map.1 hb
    exact hinv p hp

/-- C10 witness: a successful concrete scrape yields a non-fake email. -/
theorem c10_no_fake_email_witness : is_fake_email "a@acme.com" = false :=
  c10_no_fake_email.2.1 oW3 "acme.com" "a@acme.com" (by decide)

/-- C5: stop conditions of `run`.  With no resolvable locations the job stops
immediately with "No cities configured" and an empty list.  Otherwise the
engine walks the (keyword, city) pairs in order and either stops right after
the first pair at which the accumulated valid count reaches the configured
minimum, with "Target reached" and the sorted results, or — if the count
stays below the minimum after every pair — finishes the whole loop with "All
locations exhausted" and the sorted results. -/
theorem c5_stop_conditions (o : Oracles) (traces : Nat → List PageResp) (cfg : RunConfig) :
    (resolveCities cfg = [] →
      run o traces cfg =
        { results := [], finalState := {}, stop_reason := "No cities configured",
          stop_reason_detail := "No cities for state " ++ upperStr cfg.state ++ "." }) ∧
    (resolveCities cfg ≠ [] →
      ((∃ n, n < (pairsOf cfg.keywords (resolveCities cfg)).length ∧
          (run o traces cfg).stop_reason = "Target reached" ∧
          (run o traces cfg).finalState =
            (runAllPairs o traces
              ((pairsOf cfg.keywords (resolveCities cfg)).take (n + 1)) 0 false {}).1 ∧
          cfg.minResults ≤ (run o traces cfg).finalState.businesses.length ∧
          (run o traces cfg).results = sortedResults (run o traces cfg).finalState ∧
          ∀ j < n,
            (runAllPairs o traces
              ((pairsOf cfg.keywords (resolveCities cfg)).take (j + 1)) 0 false {}).1.businesses.length <
              cfg.minResults)
        ∨ ((run o traces cfg).stop_reason = "All locations exhausted" ∧
          (run o traces cfg).finalState =
            (runAllPairs o traces (pairsOf cfg.keywords (resolveCities cfg)) 0 false {}).1 ∧
          (run o traces cfg).results = sortedResults (run o traces cfg).finalState ∧
          ∀ j < (pairsOf cfg.keywords (resolveCities cfg)).length,
            (runAllPairs o traces
              ((pairsOf cfg.keywords (resolveCities cfg)).take (j + 1)) 0 false {}).1.businesses.length <
              cfg.minResults))) := by
  constructor
  · intro hcs
    unfold run
    dsimp only
    rw [if_pos hcs]
  · intro hcs
    have hres := run_results_eq o traces cfg
    have hrun : run o traces cfg =
        { results := sortedResults
            (runGo o traces cfg.minResults (pairsOf cfg.keywords (resolveCities cfg)) 0 false {}).1
          finalState :=
            (runGo o traces cfg.minResults (pairsOf cfg.keywords (resolveCities cfg)) 0 false {}).1
          stop_reason :=
            (runGo o traces cfg.minResults (pairsOf cfg.keywords (resolveCities cfg)) 0 false {}).2
          stop_reason_detail := get_stop_reason_detail
            (runGo o traces cfg.minResults (pairsOf cfg.keywords (resolveCities cfg)) 0 false {}).2 } := by
      unfold run
      dsimp only
      rw [if_neg hcs]
    rcases runGo_spec o traces cfg.minResults (pairsOf cfg.keywords (resolveCities cfg)) 0 false {}
      with ⟨n, hn, heq, hge, hlt⟩ | ⟨heq, hlt⟩
    · left
      refine ⟨n, hn, ?_, ?_, ?_, hres, hlt⟩
      · rw [hrun]
        dsimp only
        rw [heq]
      · rw [hrun]
        dsimp only
        rw [heq]
      · rw [hrun]
        dsimp only
        rw [heq]
        exact hge
    · right
      refine ⟨?_, ?_, hres, hlt⟩
      · rw [hrun]
        dsimp only
        rw [heq]
      · rw [hrun]
        dsimp only
        rw [heq]

/-- C5 witness: a config whose state resolves to no cities stops immediately
with "No cities configured" and empty results. -/
theorem c5_stop_conditions_witness :
    run oW (fun _ => []) cfgW =
      { results := [], finalState := {}, stop_reason := "No cities configured",
        stop_reason_detail := "No cities for state " ++ upperStr cfgW.state ++ "." } :=
  (c5_stop_conditions oW (fun _ => []) cfgW).1 (by decide)

end BizDiscovery